import Mathlib

/-!
Verification of the Text2-Image-Studio client logic.

The definitions below are a shallow embedding of the application logic of the
App component (generation, editing, history clearing, local-storage
persistence) and of the edit-submission guard of the ImageCard component.
Asynchronous service calls are modelled by passing the outcome of the single
outbound call as an explicit argument; the wall clock (Date.now) and the
random id draw (Math.random based) are likewise explicit arguments.  Each
handler returns the state it leaves behind together with a flag telling
whether the outbound network call was issued.
-/

set_option maxHeartbeats 1000000

namespace TextToImageStudio

/-- Aspect-ratio choices offered by the app (the source's aspect-ratio union
type in types.ts): the five values 1:1, 16:9, 9:16, 4:3, 3:4. -/
inductive Aspect where
  | r1_1
  | r16_9
  | r9_16
  | r4_3
  | r3_4
deriving DecidableEq, Repr

/-- Image record stored in the gallery (source interface GeneratedImage in
types.ts): id, url and prompt are strings; timestamp is the millisecond clock
reading produced by Date.now, modelled as a natural number. -/
structure GeneratedImage where
  id : String
  url : String
  prompt : String
  timestamp : Nat
deriving DecidableEq, Repr

/-- The slice of App component state that the generation, edit and clear
logic reads and writes: the gallery list (most recent first), the prompt
input, the selected aspect ratio, the two in-flight markers and the last
error message. -/
structure AppState where
  images : List GeneratedImage
  prompt : String
  aspect : Aspect
  isGenerating : Bool
  isEditingId : Option String
  error : Option String
deriving DecidableEq, Repr

/-- Whitespace test of JavaScript String.prototype.trim, the full
ECMAScript WhiteSpace plus LineTerminator set by code point: tab 9, line
feed 10, vertical tab 11, form feed 12, carriage return 13, space 32,
no-break space 160, ogham space mark 5760, the en-quad through hair-space
range 8192 to 8202, line separator 8232, paragraph separator 8233,
narrow no-break space 8239, medium mathematical space 8287, ideographic
space 12288, and the byte-order mark 65279. -/
def isJsWhitespace (c : Char) : Bool :=
  c.toNat = 9 || c.toNat = 10 || c.toNat = 11 || c.toNat = 12 ||
  c.toNat = 13 || c.toNat = 32 || c.toNat = 160 || c.toNat = 5760 ||
  (8192 ≤ c.toNat && c.toNat ≤ 8202) || c.toNat = 8232 || c.toNat = 8233 ||
  c.toNat = 8239 || c.toNat = 8287 || c.toNat = 12288 || c.toNat = 65279

/-- Drop the longest prefix of JavaScript whitespace characters. -/
def dropJsWs : List Char → List Char
  | [] => []
  | c :: cs => if isJsWhitespace c then dropJsWs cs else c :: cs

/-- Model of JavaScript String.prototype.trim: drop leading and trailing
whitespace. -/
def jsTrim (s : String) : String :=
  String.mk ((dropJsWs ((dropJsWs s.data).reverse)).reverse)

/-- Outcome of the one outbound call to the external image service
(geminiService): a returned image reference, or a thrown error message. -/
abbrev ServiceOutcome := Except String String

/-- Fallback error text used by App.handleGenerate when the thrown error has
an empty message (the err.message short-circuit). -/
def genFallbackError : String :=
  "Failed to generate image. Please check your API key and try again."

/-- Model of App.handleGenerate.  The guard rejects when the trimmed prompt
is empty or a generation is already in flight.  Otherwise the generating flag
is raised, the error cleared, the service called; on a returned url a fresh
record (with the drawn id, the submitted prompt and the current clock) is
prepended to the gallery and the prompt input is cleared, on a thrown error
the message is recorded; either way the finally block lowers the generating
flag.  The second component tells whether the outbound call was issued. -/
def handleGenerate (s : AppState) (svc : ServiceOutcome) (freshId : String)
    (now : Nat) : AppState × Bool :=
  if jsTrim s.prompt = "" ∨ s.isGenerating then (s, false)
  else
    let s₁ : AppState := { s with isGenerating := true, error := none }
    match svc with
    | .ok url =>
      let newImage : GeneratedImage :=
        { id := freshId, url := url, prompt := s.prompt, timestamp := now }
      ({ s₁ with images := newImage :: s₁.images, prompt := "",
                 isGenerating := false }, true)
    | .error msg =>
      ({ s₁ with error := some (if msg = "" then genFallbackError else msg),
                 isGenerating := false }, true)

/-- Record update performed by App.handleEdit on a successful edit: the
spread of the target with the new url, the annotated prompt and the current
clock reading. -/
def applyEdit (target : GeneratedImage) (editPrompt url : String) (now : Nat) :
    GeneratedImage :=
  { target with
      url := url
      prompt := target.prompt ++ " (Edit: " ++ editPrompt ++ ")"
      timestamp := now }

/-- Model of App.handleEdit.  The handler returns early when no gallery
record carries the requested id.  Otherwise the editing marker is set, the
error cleared, the service called; on a returned url every record carrying
the id is replaced by the updated copy of the first match, on a thrown error
a prefixed message is recorded; either way the finally block clears the
editing marker.  The second component tells whether the outbound call was
issued. -/
def handleEdit (s : AppState) (id editPrompt : String) (svc : ServiceOutcome)
    (now : Nat) : AppState × Bool :=
  match s.images.find? (fun img => img.id == id) with
  | none => (s, false)
  | some target =>
    let s₁ : AppState := { s with isEditingId := some id, error := none }
    match svc with
    | .ok newUrl =>
      let updatedImage := applyEdit target editPrompt newUrl now
      ({ s₁ with
          images := s₁.images.map
            (fun img => if img.id == id then updatedImage else img)
          isEditingId := none }, true)
    | .error msg =>
      ({ s₁ with error := some ("Editing failed: " ++ msg),
                 isEditingId := none }, true)

/-- Model of ImageCard.handleEditSubmit composed with App.handleEdit: the
card-level guard rejects when the trimmed instruction is empty or this card
is already the one being edited (the isEditing prop), and otherwise forwards
to App.handleEdit. -/
def handleEditSubmit (s : AppState) (id editPrompt : String)
    (svc : ServiceOutcome) (now : Nat) : AppState × Bool :=
  if jsTrim editPrompt = "" ∨ s.isEditingId = some id then (s, false)
  else handleEdit s id editPrompt svc now

/-- Model of App.clearHistory: the window.confirm answer is passed in; when
confirmed the gallery is emptied, otherwise nothing happens. -/
def clearHistory (s : AppState) (confirmed : Bool) : AppState :=
  if confirmed then { s with images := [] } else s

/-! Persistence.  The App component mirrors the gallery to one fixed
localStorage key with JSON.stringify and reads it back at startup with
JSON.parse inside a try/catch.  The two host builtins are modelled below by
an executable JSON value type together with a printer following the
JSON.stringify output format and a recursive-descent parser for the full
JSON grammar: keywords, strings with every escape form, integer, fraction
and exponent numerals (with the leading-zero restriction), arrays and
objects.  A parsed numeral is kept as the exact decimal
mantissa times ten to the exponent, an exact stand-in for the binary double
JSON.parse would round it to; surrogate pairs inside u-escapes are out of
reach of Lean strings (which hold scalar values) and are not combined. -/

/-- JSON values, as produced by JSON.parse.  A number carries its decimal
mantissa and exponent, denoting mantissa times ten to the exponent. -/
inductive Json where
  | null : Json
  | bool : Bool → Json
  | num : Int → Int → Json
  | str : String → Json
  | arr : List Json → Json
  | obj : List (String × Json) → Json

/-- The character with code 123, an opening curly brace. -/
def lbrace : Char := Char.ofNat 123

/-- The character with code 125, a closing curly brace. -/
def rbrace : Char := Char.ofNat 125

/-- Lower-case hexadecimal digit for a value below 16. -/
def hexDigitChar (n : Nat) : Char :=
  if n < 10 then Char.ofNat (48 + n) else Char.ofNat (87 + n)

/-- String-character escaping of JSON.stringify: quote and backslash get a
backslash escape, the control characters 8, 9, 10, 12, 13 get their short
escapes, the remaining control characters below 32 get a u-escape, and every
other character is emitted as itself. -/
def escChar (c : Char) : List Char :=
  if c = '"' then ['\\', '"']
  else if c = '\\' then ['\\', '\\']
  else if c = Char.ofNat 8 then ['\\', 'b']
  else if c = '\t' then ['\\', 't']
  else if c = '\n' then ['\\', 'n']
  else if c = Char.ofNat 12 then ['\\', 'f']
  else if c = '\r' then ['\\', 'r']
  else if c.toNat < 32 then
    ['\\', 'u', '0', '0', hexDigitChar (c.toNat / 16), hexDigitChar (c.toNat % 16)]
  else [c]

/-- Escape every character of a string body. -/
def escChars : List Char → List Char
  | [] => []
  | c :: cs => escChar c ++ escChars cs

/-- Printed form of a JSON string: quote, escaped body, quote. -/
def printString (s : List Char) : List Char :=
  '"' :: escChars s ++ ['"']

/-- Decimal digit character for a value below 10. -/
def digitChar (n : Nat) : Char := Char.ofNat (48 + n)

/-- Decimal digits of a natural number, least significant first; empty for
zero. -/
def natToRevDigits : Nat → List Char
  | 0 => []
  | n + 1 => digitChar ((n + 1) % 10) :: natToRevDigits ((n + 1) / 10)
decreasing_by exact Nat.div_lt_self (Nat.succ_pos n) (by norm_num)

/-- Decimal numeral of a natural number. -/
def printNat (n : Nat) : List Char :=
  if n = 0 then ['0'] else (natToRevDigits n).reverse

/-- Decimal numeral of an integer. -/
def printInt (i : Int) : List Char :=
  if i < 0 then '-' :: printNat i.natAbs else printNat i.natAbs

/-- Printed exponent suffix of a number: empty at exponent zero (the only
form the app ever writes, since JSON.stringify prints its integer
timestamps plainly), an e-suffixed numeral otherwise. -/
def printExp (e : Int) : List Char :=
  if e = 0 then [] else 'e' :: printInt e

mutual

/-- Printed form of a JSON value, following the whitespace-free output of
JSON.stringify. -/
def printJson : Json → List Char
  | .null => 'n' :: 'u' :: 'l' :: ['l']
  | .bool true => 't' :: 'r' :: 'u' :: ['e']
  | .bool false => 'f' :: 'a' :: 'l' :: 's' :: ['e']
  | .num m e => printInt m ++ printExp e
  | .str s => printString s.data
  | .arr [] => ['[', ']']
  | .arr (x :: xs) => '[' :: (printJson x ++ printItems xs) ++ [']']
  | .obj [] => [lbrace, rbrace]
  | .obj (m :: ms) => lbrace :: (printMember m ++ printMembers ms) ++ [rbrace]

/-- Comma-prefixed printed forms of the later elements of an array. -/
def printItems : List Json → List Char
  | [] => []
  | x :: xs => ',' :: printJson x ++ printItems xs

/-- Printed form of one object member: key, colon, value. -/
def printMember : String × Json → List Char
  | (k, v) => printString k.data ++ ':' :: printJson v

/-- Comma-prefixed printed forms of the later members of an object. -/
def printMembers : List (String × Json) → List Char
  | [] => []
  | m :: ms => ',' :: printMember m ++ printMembers ms

end

/-- Decimal digit test on character codes. -/
def isDigitCh (c : Char) : Bool := 48 ≤ c.toNat && c.toNat ≤ 57

/-- Value of a hexadecimal digit character, upper or lower case. -/
def hexVal (c : Char) : Option Nat :=
  if 48 ≤ c.toNat ∧ c.toNat ≤ 57 then some (c.toNat - 48)
  else if 97 ≤ c.toNat ∧ c.toNat ≤ 102 then some (c.toNat - 87)
  else if 65 ≤ c.toNat ∧ c.toNat ≤ 70 then some (c.toNat - 55)
  else none

/-- Body of a JSON string parse, entered after the opening quote: collects
characters until the closing quote, decoding backslash escapes (including
four-digit u-escapes) on the way, and rejecting the raw control characters
the JSON grammar forbids inside strings; returns the body and the input
remaining after the closing quote. -/
def parseStringAux : List Char → Option (List Char × List Char)
  | [] => none
  | c :: cs =>
    if c = '"' then some ([], cs)
    else if c = '\\' then
      match cs with
      | [] => none
      | e :: cs₂ =>
        if e = '"' then (parseStringAux cs₂).map (fun p => ('"' :: p.1, p.2))
        else if e = '\\' then (parseStringAux cs₂).map (fun p => ('\\' :: p.1, p.2))
        else if e = '/' then (parseStringAux cs₂).map (fun p => ('/' :: p.1, p.2))
        else if e = 'b' then (parseStringAux cs₂).map (fun p => (Char.ofNat 8 :: p.1, p.2))
        else if e = 'f' then (parseStringAux cs₂).map (fun p => (Char.ofNat 12 :: p.1, p.2))
        else if e = 'n' then (parseStringAux cs₂).map (fun p => ('\n' :: p.1, p.2))
        else if e = 'r' then (parseStringAux cs₂).map (fun p => ('\r' :: p.1, p.2))
        else if e = 't' then (parseStringAux cs₂).map (fun p => ('\t' :: p.1, p.2))
        else if e = 'u' then
          match cs₂ with
          | a :: b :: c₃ :: d :: cs₃ =>
            match hexVal a, hexVal b, hexVal c₃, hexVal d with
            | some ha, some hb, some hc, some hd =>
              (parseStringAux cs₃).map
                (fun p => (Char.ofNat (((ha * 16 + hb) * 16 + hc) * 16 + hd) :: p.1, p.2))
            | _, _, _, _ => none
          | _ => none
        else none
    else if c.toNat < 32 then none
    else (parseStringAux cs).map (fun p => (c :: p.1, p.2))
termination_by l => l.length
decreasing_by all_goals simp_wf <;> omega

/-- Whitespace characters of the JSON grammar: space, tab, line feed and
carriage return, identified by code point. -/
def isWsChar (c : Char) : Bool :=
  c.toNat = 32 || c.toNat = 9 || c.toNat = 10 || c.toNat = 13

/-- Drop leading JSON whitespace. -/
def skipWs : List Char → List Char
  | [] => []
  | c :: cs => if isWsChar c then skipWs cs else c :: cs

/-- Consume an expected literal character sequence. -/
def dropLit : List Char → List Char → Option (List Char)
  | [], rest => some rest
  | _, [] => none
  | p :: ps, c :: cs => if c = p then dropLit ps cs else none

/-- Consume a maximal run of decimal digits, folding them onto an
accumulator. -/
def parseDigitsAux (acc : Nat) : List Char → Nat × List Char
  | [] => (acc, [])
  | c :: cs =>
    if isDigitCh c then parseDigitsAux (acc * 10 + (c.toNat - 48)) cs
    else (acc, c :: cs)

/-- Parse a nonempty run of decimal digits into a natural number (leading
zeros allowed, as in fraction and exponent digits). -/
def parseNatNum : List Char → Option (Nat × List Char)
  | [] => none
  | c :: cs =>
    if isDigitCh c then some (parseDigitsAux (c.toNat - 48) cs)
    else none

/-- Consume a maximal digit run, folding value and digit count. -/
def parseDigitsCnt (acc cnt : Nat) : List Char → Nat × Nat × List Char
  | [] => (acc, cnt, [])
  | c :: cs =>
    if isDigitCh c then parseDigitsCnt (acc * 10 + (c.toNat - 48)) (cnt + 1) cs
    else (acc, cnt, c :: cs)

/-- Integer part of a JSON numeral: a lone zero, or a nonzero digit
followed by further digits — the grammar's leading-zero restriction (a
zero digit ends the integer part, so 01 fails in the surrounding
grammar exactly as JSON.parse rejects it). -/
def parseIntPart : List Char → Option (Nat × List Char)
  | [] => none
  | c :: cs =>
    if c.toNat = 48 then some (0, cs)
    else if isDigitCh c then some (parseDigitsAux (c.toNat - 48) cs)
    else none

/-- Optional fraction part of a JSON numeral: a dot demands at least one
digit; without a dot the part is empty.  Returns the fraction value, its
digit count and the remaining input. -/
def parseFracPart : List Char → Option (Nat × Nat × List Char)
  | [] => some (0, 0, [])
  | c :: cs =>
    if c = '.' then
      match cs with
      | [] => none
      | d :: cs₂ =>
        if isDigitCh d then some (parseDigitsCnt (d.toNat - 48) 1 cs₂)
        else none
    else some (0, 0, c :: cs)

/-- Optional exponent part of a JSON numeral: an e or E demands an
optionally signed nonempty digit run; without one the exponent is zero. -/
def parseExpPart : List Char → Option (Int × List Char)
  | [] => some (0, [])
  | c :: cs =>
    if c = 'e' ∨ c = 'E' then
      match cs with
      | [] => none
      | s :: cs₂ =>
        if s = '+' then (parseNatNum cs₂).map (fun p => ((p.1 : Int), p.2))
        else if s = '-' then (parseNatNum cs₂).map (fun p => (-(p.1 : Int), p.2))
        else (parseNatNum (s :: cs₂)).map (fun p => ((p.1 : Int), p.2))
    else some (0, c :: cs)

/-- One JSON numeral after an optional already-consumed minus sign:
integer, fraction and exponent parts combined into the exact decimal
mantissa and exponent of the denoted value. -/
def parseJsonNum (neg : Bool) (l : List Char) : Option (Json × List Char) :=
  match parseIntPart l with
  | none => none
  | some (n, r₁) =>
    match parseFracPart r₁ with
    | none => none
    | some (fv, fc, r₂) =>
      match parseExpPart r₂ with
      | none => none
      | some (ex, r₃) =>
        let mant : Int := ((n * 10 ^ fc + fv : Nat) : Int)
        some (Json.num (if neg then -mant else mant) (ex - (fc : Int)), r₃)

/-- Elements of a nonempty JSON array, entered after the opening bracket
(and any following whitespace): parses one value with the supplied value
parser, then a comma and further elements or the closing bracket.  The fuel
argument bounds the number of elements. -/
def parseListWith (pv : List Char → Option (Json × List Char)) :
    Nat → List Char → Option (List Json × List Char)
  | 0, _ => none
  | fuel + 1, l =>
    match pv l with
    | none => none
    | some (j, rest) =>
      match skipWs rest with
      | [] => none
      | c :: rest₂ =>
        if c = ',' then (parseListWith pv fuel rest₂).map (fun p => (j :: p.1, p.2))
        else if c = ']' then some ([j], rest₂)
        else none

/-- Members of a nonempty JSON object, entered after the opening brace:
parses a quoted key, a colon, a value with the supplied value parser, then a
comma and further members or the closing brace. -/
def parseMembersWith (pv : List Char → Option (Json × List Char)) :
    Nat → List Char → Option (List (String × Json) × List Char)
  | 0, _ => none
  | fuel + 1, l =>
    match skipWs l with
    | [] => none
    | c :: cs =>
      if c = '"' then
        match parseStringAux cs with
        | none => none
        | some (k, rest) =>
          match skipWs rest with
          | [] => none
          | c₂ :: rest₂ =>
            if c₂ = ':' then
              match pv rest₂ with
              | none => none
              | some (v, rest₃) =>
                match skipWs rest₃ with
                | [] => none
                | c₃ :: rest₄ =>
                  if c₃ = ',' then
                    (parseMembersWith pv fuel rest₄).map
                      (fun p => ((String.mk k, v) :: p.1, p.2))
                  else if c₃ = rbrace then some ([(String.mk k, v)], rest₄)
                  else none
            else none
      else none

/-- One JSON value: leading whitespace, then a keyword, string, array,
object or integer numeral, dispatched on the first character.  The fuel
argument bounds the nesting depth and the element counts. -/
def parseValue : Nat → List Char → Option (Json × List Char)
  | 0, _ => none
  | fuel + 1, l =>
    match skipWs l with
    | [] => none
    | c :: cs =>
      if c = 'n' then (dropLit ['u', 'l', 'l'] cs).map (fun r => (Json.null, r))
      else if c = 't' then (dropLit ['r', 'u', 'e'] cs).map (fun r => (Json.bool true, r))
      else if c = 'f' then (dropLit ['a', 'l', 's', 'e'] cs).map (fun r => (Json.bool false, r))
      else if c = '"' then (parseStringAux cs).map (fun p => (Json.str (String.mk p.1), p.2))
      else if c = '[' then
        match skipWs cs with
        | [] => none
        | c₂ :: cs₂ =>
          if c₂ = ']' then some (Json.arr [], cs₂)
          else (parseListWith (parseValue fuel) fuel (c₂ :: cs₂)).map
            (fun p => (Json.arr p.1, p.2))
      else if c = lbrace then
        match skipWs cs with
        | [] => none
        | c₂ :: cs₂ =>
          if c₂ = rbrace then some (Json.obj [], cs₂)
          else (parseMembersWith (parseValue fuel) fuel (c₂ :: cs₂)).map
            (fun p => (Json.obj p.1, p.2))
      else if c = '-' then parseJsonNum true cs
      else parseJsonNum false (c :: cs)

/-- Model of JSON.parse: parse one value and require that only whitespace
remains; any failure is a thrown SyntaxError, modelled as none. -/
def jsonParse (s : String) : Option Json :=
  match parseValue (s.length + 1) s.data with
  | none => none
  | some (j, rest) => if skipWs rest = [] then some j else none

/-- The fixed localStorage key used by the App component. -/
def storageKey : String := "text2image-images"

/-- JSON value of one gallery record, with the object-literal key order of
the source (id, url, prompt, timestamp). -/
def imageToJson (g : GeneratedImage) : Json :=
  Json.obj [("id", Json.str g.id), ("url", Json.str g.url),
            ("prompt", Json.str g.prompt),
            ("timestamp", Json.num (g.timestamp : Int) 0)]

/-- JSON value of the whole gallery. -/
def imagesToJson (l : List GeneratedImage) : Json := Json.arr (l.map imageToJson)

/-- Model of JSON.stringify on the gallery. -/
def stringifyImages (l : List GeneratedImage) : String :=
  String.mk (printJson (imagesToJson l))

/-- Model of the save effect: every change of the gallery writes its
serialization to the fixed key, unconditionally replacing whatever string
was stored there before. -/
def saveImages (l : List GeneratedImage) (_prior : Option String) : Option String :=
  some (stringifyImages l)

/-- Model of the startup load effect.  The images state starts as the empty
list; when the fixed key is absent nothing more happens, when JSON.parse
throws the error is caught and logged, and when it returns a value that
value is installed with no structural validation.  The result is the runtime
value held by the images state after the effect, as a JSON value (the empty
gallery being its JSON value). -/
def loadImages (stored : Option String) : Json :=
  match stored with
  | none => imagesToJson []
  | some s =>
    match jsonParse s with
    | none => imagesToJson []
    | some j => j

/-- Look up an object field by name, as JS property access on a parsed
object. -/
def getField : List (String × Json) → String → Option Json
  | [], _ => none
  | (k, v) :: ms, key => if k = key then some v else getField ms key

/-- Read back one gallery record from a JSON value: an object whose id, url
and prompt fields are strings and whose timestamp field is a nonnegative
integer numeral (exponent zero, the form the app writes). -/
def decodeImage : Json → Option GeneratedImage
  | .obj ms =>
    match getField ms "id", getField ms "url",
          getField ms "prompt", getField ms "timestamp" with
    | some (.str i), some (.str u), some (.str p), some (.num t e) =>
      if e = 0 ∧ 0 ≤ t then some ⟨i, u, p, t.toNat⟩ else none
    | _, _, _, _ => none
  | _ => none

/-- Read back a gallery from a JSON value: an array of record objects. -/
def decodeImages : Json → Option (List GeneratedImage)
  | .arr xs => xs.mapM decodeImage
  | _ => none

mutual

/-- Node-count measure of a JSON value, used to bound the parser fuel. -/
def jsize : Json → Nat
  | .null => 1
  | .bool _ => 1
  | .num _ _ => 1
  | .str _ => 1
  | .arr xs => 1 + jsizeItems xs
  | .obj ms => 1 + jsizeMembers ms

/-- Measure of an array element list. -/
def jsizeItems : List Json → Nat
  | [] => 0
  | x :: xs => 1 + jsize x + jsizeItems xs

/-- Measure of an object member list. -/
def jsizeMembers : List (String × Json) → Nat
  | [] => 0
  | m :: ms => 1 + jsize m.2 + jsizeMembers ms

end

/-- Input whose first character is not a decimal digit; digit-run parses
followed by such a remainder stop exactly at the remainder. -/
def noLeadingDigit : List Char → Bool
  | [] => true
  | c :: _ => !(isDigitCh c)

/-- Input whose first character cannot continue a numeral: neither a digit
nor a dot nor an exponent marker; numeral parses followed by such a
remainder stop exactly at the remainder. -/
def noNumTail : List Char → Bool
  | [] => true
  | c :: _ => !(isDigitCh c || c == '.' || c == 'e' || c == 'E')

/-- C4: a submission whose prompt trims to the empty string, and any
submission made while a generation is already in flight, is a no-op — the
state (in particular the images sequence) is returned unchanged and no
service call is issued. -/
theorem handleGenerate_rejected (s : AppState) (svc : ServiceOutcome)
    (freshId : String) (now : Nat)
    (h : jsTrim s.prompt = "" ∨ s.isGenerating = true) :
    handleGenerate s svc freshId now = (s, false) := by
  unfold handleGenerate
  rw [if_pos h]

theorem handleGenerate_rejected_witness :
    (jsTrim "\u3000 \u202F" = "" ∨ false = true) ∧
    handleGenerate ⟨[], "\u3000 \u202F", .r1_1, false, none, none⟩ (.ok "u") "i" 3 =
      (⟨[], "\u3000 \u202F", .r1_1, false, none, none⟩, false) :=
  ⟨Or.inl (by decide),
   handleGenerate_rejected ⟨[], "\u3000 \u202F", .r1_1, false, none, none⟩
     (.ok "u") "i" 3 (Or.inl (by decide))⟩

/-- C5: an edit submission whose target id is not present in the gallery, or
whose instruction text is empty, is rejected — the state is returned
unchanged and no service call is issued. -/
theorem handleEditSubmit_rejected (s : AppState) (id editPrompt : String)
    (svc : ServiceOutcome) (now : Nat)
    (h : s.images.find? (fun img => img.id == id) = none ∨ editPrompt = "") :
    handleEditSubmit s id editPrompt svc now = (s, false) := by
  rcases h with h | h
  · unfold handleEditSubmit
    by_cases hg : jsTrim editPrompt = "" ∨ s.isEditingId = some id
    · rw [if_pos hg]
    · rw [if_neg hg]
      unfold handleEdit
      rw [h]
  · subst h
    unfold handleEditSubmit
    rw [if_pos (Or.inl (by decide))]

theorem handleEditSubmit_rejected_witness :
    ((([⟨"a", "u", "p", 1⟩] : List GeneratedImage).find?
        (fun img => img.id == "zzz") = none ∨ ("go" : String) = "") ∧
      handleEditSubmit ⟨[⟨"a", "u", "p", 1⟩], "", .r1_1, false, none, none⟩
        "zzz" "go" (.ok "u2") 9 =
        (⟨[⟨"a", "u", "p", 1⟩], "", .r1_1, false, none, none⟩, false)) :=
  ⟨Or.inl (by decide),
   handleEditSubmit_rejected ⟨[⟨"a", "u", "p", 1⟩], "", .r1_1, false, none, none⟩
     "zzz" "go" (.ok "u2") 9 (Or.inl (by decide))⟩

/-- C8: whenever a generation or edit attempt actually issues its service
call, the corresponding in-flight marker is cleared once the handler
finishes, whether the call returned a url or threw. -/
theorem inFlight_cleared (s : AppState) (svc : ServiceOutcome)
    (freshId id editPrompt : String) (now : Nat) :
    ((handleGenerate s svc freshId now).2 = true →
      (handleGenerate s svc freshId now).1.isGenerating = false) ∧
    ((handleEdit s id editPrompt svc now).2 = true →
      (handleEdit s id editPrompt svc now).1.isEditingId = none) := by
  constructor
  · intro h
    unfold handleGenerate at h ⊢
    by_cases hg : jsTrim s.prompt = "" ∨ s.isGenerating = true
    · rw [if_pos hg] at h
      simp at h
    · rw [if_neg hg] at h ⊢
      cases svc <;> rfl
  · intro h
    unfold handleEdit at h ⊢
    cases hf : s.images.find? (fun img => img.id == id) with
    | none => rw [hf] at h; simp at h
    | some target => cases svc <;> rfl

theorem inFlight_cleared_witness :
    (handleGenerate ⟨[⟨"a", "u", "p", 1⟩], "hi", .r1_1, false, none, none⟩
        (.error "boom") "b" 5).1.isGenerating = false ∧
    (handleEdit ⟨[⟨"a", "u", "p", 1⟩], "hi", .r1_1, false, none, none⟩
        "a" "e" (.error "boom") 5).1.isEditingId = none :=
  ⟨(inFlight_cleared ⟨[⟨"a", "u", "p", 1⟩], "hi", .r1_1, false, none, none⟩
      (.error "boom") "b" "a" "e" 5).1 (by decide),
   (inFlight_cleared ⟨[⟨"a", "u", "p", 1⟩], "hi", .r1_1, false, none, none⟩
      (.error "boom") "b" "a" "e" 5).2 (by decide)⟩

/-- C10: a declined clear-history confirmation leaves the state — and hence
the value written to the persisted store — unchanged, while a confirmed one
empties the gallery whatever its prior size. -/
theorem clearHistory_spec (s : AppState) (prior : Option String) :
    clearHistory s false = s ∧
    saveImages (clearHistory s false).images prior = saveImages s.images prior ∧
    (clearHistory s true).images = [] :=
  ⟨rfl, rfl, rfl⟩

/-- C1 (counterexample): ids are drawn by the handler from Math.random with
no collision check, so a successful generation whose drawn id happens to
equal an existing id yields two records with the same id — the new record's
id is then not distinct from every pre-existing one. -/
theorem handleGenerate_id_collision :
    (handleGenerate ⟨[⟨"abc", "u0", "p0", 1⟩], "hi", .r1_1, false, none, none⟩
        (.ok "u1") "abc" 5).2 = true ∧
    ((handleGenerate ⟨[⟨"abc", "u0", "p0", 1⟩], "hi", .r1_1, false, none, none⟩
        (.ok "u1") "abc" 5).1.images.map (fun img => img.id)) = ["abc", "abc"] := by
  constructor <;> decide

/-- C1 (amended): on a successful generation whose drawn id differs from
every id already in the gallery, the new record — carrying the drawn id, the
returned url, the submitted prompt and the current clock — sits at position
0 of the resulting sequence, the old sequence follows it unchanged, and its
id is distinct from the id of every other record of the result. -/
theorem handleGenerate_success_fresh (s : AppState) (url freshId : String)
    (now : Nat)
    (hfresh : ∀ img ∈ s.images, img.id ≠ freshId)
    (hprompt : jsTrim s.prompt ≠ "") (hgen : s.isGenerating = false) :
    (handleGenerate s (.ok url) freshId now).2 = true ∧
    (handleGenerate s (.ok url) freshId now).1.images.head? =
      some { id := freshId, url := url, prompt := s.prompt, timestamp := now } ∧
    (handleGenerate s (.ok url) freshId now).1.images.tail = s.images ∧
    ∀ img ∈ (handleGenerate s (.ok url) freshId now).1.images.tail,
      img.id ≠ freshId := by
  have hcond : ¬(jsTrim s.prompt = "" ∨ s.isGenerating = true) := by
    rw [hgen]; simp [hprompt]
  unfold handleGenerate
  rw [if_neg hcond]
  exact ⟨rfl, rfl, rfl, hfresh⟩

theorem handleGenerate_success_fresh_witness :
    ((∀ img ∈ ([⟨"a", "u0", "p0", 1⟩] : List GeneratedImage), img.id ≠ "b") ∧
      jsTrim "hi" ≠ "") ∧
    ((handleGenerate ⟨[⟨"a", "u0", "p0", 1⟩], "hi", .r1_1, false, none, none⟩
        (.ok "u1") "b" 5).2 = true ∧
      (handleGenerate ⟨[⟨"a", "u0", "p0", 1⟩], "hi", .r1_1, false, none, none⟩
        (.ok "u1") "b" 5).1.images.head? = some ⟨"b", "u1", "hi", 5⟩ ∧
      (handleGenerate ⟨[⟨"a", "u0", "p0", 1⟩], "hi", .r1_1, false, none, none⟩
        (.ok "u1") "b" 5).1.images.tail = [⟨"a", "u0", "p0", 1⟩] ∧
      ∀ img ∈ (handleGenerate ⟨[⟨"a", "u0", "p0", 1⟩], "hi", .r1_1, false, none,
        none⟩ (.ok "u1") "b" 5).1.images.tail, img.id ≠ "b") :=
  ⟨⟨by decide, by decide⟩,
   handleGenerate_success_fresh
     ⟨[⟨"a", "u0", "p0", 1⟩], "hi", .r1_1, false, none, none⟩ "u1" "b" 5
     (by decide) (by decide) rfl⟩

/-- C2 (counterexample): the updated record's timestamp is the Date.now
reading at completion; when the edit completes in the same millisecond in
which the target was stamped, the new timestamp equals the old one instead
of strictly exceeding it. -/
theorem handleEdit_timestamp_not_strict :
    (handleEdit ⟨[⟨"a", "u0", "p0", 5⟩], "", .r1_1, false, none, none⟩
        "a" "e" (.ok "u1") 5).2 = true ∧
    (handleEdit ⟨[⟨"a", "u0", "p0", 5⟩], "", .r1_1, false, none, none⟩
        "a" "e" (.ok "u1") 5).1.images = [⟨"a", "u1", "p0 (Edit: e)", 5⟩] := by
  constructor <;> decide

/-- C2 (amended): on a successful edit of the record found for id X, the
gallery contains the updated record, whose url is the returned reference,
whose prompt is the old prompt with the edit annotation appended, and whose
timestamp is the clock reading at completion — strictly above the previous
timestamp whenever the clock has advanced past it; a further edit appends
its annotation after the first one. -/
theorem handleEdit_success_updates (s : AppState) (id editPrompt url : String)
    (now : Nat) (target : GeneratedImage)
    (hfind : s.images.find? (fun img => img.id == id) = some target)
    (hclock : target.timestamp < now) :
    (handleEdit s id editPrompt (.ok url) now).2 = true ∧
    applyEdit target editPrompt url now ∈
      (handleEdit s id editPrompt (.ok url) now).1.images ∧
    (applyEdit target editPrompt url now).url = url ∧
    (applyEdit target editPrompt url now).prompt =
      target.prompt ++ " (Edit: " ++ editPrompt ++ ")" ∧
    target.timestamp < (applyEdit target editPrompt url now).timestamp ∧
    ∀ e₂ u₂ n₂, (applyEdit (applyEdit target editPrompt url now) e₂ u₂ n₂).prompt =
      target.prompt ++ " (Edit: " ++ editPrompt ++ ")" ++ " (Edit: " ++ e₂ ++ ")" := by
  have hmem : target ∈ s.images := List.mem_of_find?_eq_some hfind
  have hpred : (target.id == id) = true := by
    have h2 := List.find?_some hfind
    simpa using h2
  refine ⟨?_, ?_, rfl, rfl, hclock, fun e₂ u₂ n₂ => rfl⟩
  · unfold handleEdit
    rw [hfind]
  · unfold handleEdit
    rw [hfind]
    have hmap := List.mem_map_of_mem
      (fun img => if (img.id == id) = true then applyEdit target editPrompt url now else img)
      hmem
    have hft : (fun img => if (img.id == id) = true then
        applyEdit target editPrompt url now else img) target =
        applyEdit target editPrompt url now := by
      simp [hpred]
    rw [hft] at hmap
    exact hmap

theorem handleEdit_success_updates_witness :
    (([⟨"a", "u0", "p0", 5⟩] : List GeneratedImage).find?
        (fun img => img.id == "a") = some ⟨"a", "u0", "p0", 5⟩ ∧ 5 < 9) ∧
    ((handleEdit ⟨[⟨"a", "u0", "p0", 5⟩], "", .r1_1, false, none, none⟩
        "a" "e" (.ok "u1") 9).2 = true ∧
      applyEdit ⟨"a", "u0", "p0", 5⟩ "e" "u1" 9 ∈
        (handleEdit ⟨[⟨"a", "u0", "p0", 5⟩], "", .r1_1, false, none, none⟩
          "a" "e" (.ok "u1") 9).1.images ∧
      (applyEdit ⟨"a", "u0", "p0", 5⟩ "e" "u1" 9).url = "u1" ∧
      (applyEdit ⟨"a", "u0", "p0", 5⟩ "e" "u1" 9).prompt =
        "p0" ++ " (Edit: " ++ "e" ++ ")" ∧
      5 < (applyEdit ⟨"a", "u0", "p0", 5⟩ "e" "u1" 9).timestamp ∧
      ∀ e₂ u₂ n₂,
        (applyEdit (applyEdit ⟨"a", "u0", "p0", 5⟩ "e" "u1" 9) e₂ u₂ n₂).prompt =
          "p0" ++ " (Edit: " ++ "e" ++ ")" ++ " (Edit: " ++ e₂ ++ ")") :=
  ⟨⟨by decide, by decide⟩,
   handleEdit_success_updates
     ⟨[⟨"a", "u0", "p0", 5⟩], "", .r1_1, false, none, none⟩ "a" "e" "u1" 9
     ⟨"a", "u0", "p0", 5⟩ (by decide) (by decide)⟩

/-- C3: a successful edit targeting id X leaves every gallery record whose
id differs from X exactly as it was, at its old position, in all four
fields. -/
theorem handleEdit_frame (s : AppState) (id editPrompt url : String) (now : Nat)
    (i : Nat) (h : i < s.images.length)
    (hid : (s.images.get ⟨i, h⟩).id ≠ id) :
    ∃ h' : i < (handleEdit s id editPrompt (.ok url) now).1.images.length,
      (handleEdit s id editPrompt (.ok url) now).1.images.get ⟨i, h'⟩ =
        s.images.get ⟨i, h⟩ := by
  unfold handleEdit
  cases hf : s.images.find? (fun img => img.id == id) with
  | none => exact ⟨h, rfl⟩
  | some target =>
    refine ⟨by simpa using h, ?_⟩
    simp only [List.get_eq_getElem, List.getElem_map]
    rw [if_neg]
    simpa using hid

theorem handleEdit_frame_witness :
    (([⟨"a", "u0", "p0", 1⟩, ⟨"b", "u1", "p1", 2⟩] : List GeneratedImage).get
        ⟨1, by decide⟩).id ≠ "a" ∧
    ∃ h' : 1 < (handleEdit ⟨[⟨"a", "u0", "p0", 1⟩, ⟨"b", "u1", "p1", 2⟩], "",
        .r1_1, false, none, none⟩ "a" "e" (.ok "u2") 9).1.images.length,
      (handleEdit ⟨[⟨"a", "u0", "p0", 1⟩, ⟨"b", "u1", "p1", 2⟩], "", .r1_1,
        false, none, none⟩ "a" "e" (.ok "u2") 9).1.images.get ⟨1, h'⟩ =
        ([⟨"a", "u0", "p0", 1⟩, ⟨"b", "u1", "p1", 2⟩] : List GeneratedImage).get
          ⟨1, by decide⟩ :=
  ⟨by decide,
   handleEdit_frame ⟨[⟨"a", "u0", "p0", 1⟩, ⟨"b", "u1", "p1", 2⟩], "", .r1_1,
     false, none, none⟩ "a" "e" "u2" 9 1 (by decide) (by decide)⟩

/-- Helper: find? returns the head of the matching suffix when nothing
before it matches. -/
theorem find?_of_split {α : Type} (p : α → Bool) (pre post : List α) (target : α)
    (hpre : ∀ y ∈ pre, p y = false) (ht : p target = true) :
    (pre ++ target :: post).find? p = some target := by
  induction pre with
  | nil => simpa using List.find?_cons_of_pos post ht
  | cons a l ih =>
    rw [List.cons_append, List.find?_cons_of_neg]
    · exact ih (fun y hy => hpre y (List.mem_cons_of_mem a hy))
    · simp [hpre a (List.mem_cons_self a l)]

/-- C9: when several gallery records share the targeted id (possible since
ids are random draws with no collision check), a successful edit replaces
every one of them by the same updated record, built from the first matching
record. -/
theorem handleEdit_duplicate_ids (s : AppState) (pre post : List GeneratedImage)
    (target : GeneratedImage) (id editPrompt url : String) (now : Nat)
    (hsplit : s.images = pre ++ target :: post)
    (hpre : ∀ y ∈ pre, y.id ≠ id) (htgt : target.id = id) :
    (handleEdit s id editPrompt (.ok url) now).2 = true ∧
    (handleEdit s id editPrompt (.ok url) now).1.images.length =
      s.images.length ∧
    ∀ i (h : i < s.images.length)
      (h' : i < (handleEdit s id editPrompt (.ok url) now).1.images.length),
      (s.images.get ⟨i, h⟩).id = id →
      (handleEdit s id editPrompt (.ok url) now).1.images.get ⟨i, h'⟩ =
        applyEdit target editPrompt url now := by
  have hfind : s.images.find? (fun img => img.id == id) = some target := by
    rw [hsplit]
    apply find?_of_split
    · intro y hy
      simpa using hpre y hy
    · simpa using htgt
  unfold handleEdit
  rw [hfind]
  refine ⟨rfl, by simp, ?_⟩
  intro i h h' hmatch
  simp only [List.get_eq_getElem, List.getElem_map]
  rw [if_pos]
  simpa using hmatch

theorem handleEdit_duplicate_ids_witness :
    ((∀ y ∈ ([] : List GeneratedImage), y.id ≠ "a") ∧
      ([⟨"a", "u1", "p1", 1⟩, ⟨"a", "u2", "p2", 2⟩] : List GeneratedImage) =
        [] ++ ⟨"a", "u1", "p1", 1⟩ :: [⟨"a", "u2", "p2", 2⟩]) ∧
    ((handleEdit ⟨[⟨"a", "u1", "p1", 1⟩, ⟨"a", "u2", "p2", 2⟩], "", .r1_1,
        false, none, none⟩ "a" "e" (.ok "u3") 7).2 = true ∧
      (handleEdit ⟨[⟨"a", "u1", "p1", 1⟩, ⟨"a", "u2", "p2", 2⟩], "", .r1_1,
        false, none, none⟩ "a" "e" (.ok "u3") 7).1.images.length =
        ([⟨"a", "u1", "p1", 1⟩, ⟨"a", "u2", "p2", 2⟩] :
          List GeneratedImage).length ∧
      ∀ i (h : i < ([⟨"a", "u1", "p1", 1⟩, ⟨"a", "u2", "p2", 2⟩] :
          List GeneratedImage).length)
        (h' : i < (handleEdit ⟨[⟨"a", "u1", "p1", 1⟩, ⟨"a", "u2", "p2", 2⟩],
          "", .r1_1, false, none, none⟩ "a" "e" (.ok "u3") 7).1.images.length),
        (([⟨"a", "u1", "p1", 1⟩, ⟨"a", "u2", "p2", 2⟩] :
          List GeneratedImage).get ⟨i, h⟩).id = "a" →
        (handleEdit ⟨[⟨"a", "u1", "p1", 1⟩, ⟨"a", "u2", "p2", 2⟩], "", .r1_1,
          false, none, none⟩ "a" "e" (.ok "u3") 7).1.images.get ⟨i, h'⟩ =
          applyEdit ⟨"a", "u1", "p1", 1⟩ "e" "u3" 7) :=
  ⟨⟨by decide, by decide⟩,
   handleEdit_duplicate_ids
     ⟨[⟨"a", "u1", "p1", 1⟩, ⟨"a", "u2", "p2", 2⟩], "", .r1_1, false, none, none⟩
     [] [⟨"a", "u2", "p2", 2⟩] ⟨"a", "u1", "p1", 1⟩ "a" "e" "u3" 7
     (by decide) (by decide) rfl⟩

/-- Helper: characters with equal code points are equal. -/
theorem char_toNat_inj {a b : Char} (h : a.toNat = b.toNat) : a = b := by
  apply Char.ext
  apply UInt32.ext
  simpa [Char.toNat, UInt32.toNat] using h

/-- Helper: the code point of a character built from a small scalar value. -/
theorem toNat_ofNat_lt (n : Nat) (h : n < 55296) : (Char.ofNat n).toNat = n := by
  rw [Char.ofNat, dif_pos (Or.inl h)]
  simp [Char.ofNatAux, Char.toNat, UInt32.toNat, Nat.toUInt32, UInt32.ofNatCore]

/-- Helper: whitespace skipping stops at a non-whitespace head. -/
theorem skipWs_cons_of_neg (c : Char) (l : List Char) (h : isWsChar c = false) :
    skipWs (c :: l) = c :: l := by
  rw [skipWs, if_neg]
  simp [h]

/-- Helper: consuming a literal off the front of itself yields the rest. -/
theorem dropLit_self (p rest : List Char) : dropLit p (p ++ rest) = some rest := by
  induction p with
  | nil => cases rest <;> rfl
  | cons a l ih => simpa [dropLit] using ih

/-- Helper: hexadecimal printing and reading of a value below 16 agree. -/
theorem hexVal_hexDigitChar (m : Nat) (h : m < 16) :
    hexVal (hexDigitChar m) = some m := by
  unfold hexDigitChar hexVal
  by_cases h10 : m < 10
  · rw [if_pos h10, toNat_ofNat_lt (48 + m) (by omega), if_pos (by omega)]
    simp
  · rw [if_neg h10, toNat_ofNat_lt (87 + m) (by omega), if_neg (by omega),
      if_pos (by omega)]
    simp [Nat.add_sub_cancel_left]

/-- Helper: string-body parsing inverts string-body escaping. -/
theorem parseStringAux_escChars (s rest : List Char) :
    parseStringAux (escChars s ++ '"' :: rest) = some (s, rest) := by
  induction s with
  | nil =>
    rw [escChars, List.nil_append, parseStringAux.eq_def]
    simp
  | cons c cs ih =>
    rw [escChars, List.append_assoc]
    by_cases h1 : c = '"'
    · subst h1
      rw [escChar, if_pos rfl]
      simp only [List.cons_append, List.nil_append]
      rw [parseStringAux.eq_def]
      simp [ih]
    · by_cases h2 : c = '\\'
      · subst h2
        rw [escChar, if_neg h1, if_pos rfl]
        simp only [List.cons_append, List.nil_append]
        rw [parseStringAux.eq_def]
        simp [ih]
      · by_cases h3 : c = Char.ofNat 8
        · subst h3
          rw [escChar, if_neg h1, if_neg h2, if_pos rfl]
          simp only [List.cons_append, List.nil_append]
          rw [parseStringAux.eq_def]
          simp [ih, show ¬(Char.ofNat 8 = '"') from h1,
            show ¬(Char.ofNat 8 = '\\') from h2]
        · by_cases h4 : c = '\t'
          · subst h4
            rw [escChar, if_neg h1, if_neg h2, if_neg h3, if_pos rfl]
            simp only [List.cons_append, List.nil_append]
            rw [parseStringAux.eq_def]
            simp [ih]
          · by_cases h5 : c = '\n'
            · subst h5
              rw [escChar, if_neg h1, if_neg h2, if_neg h3, if_neg h4, if_pos rfl]
              simp only [List.cons_append, List.nil_append]
              rw [parseStringAux.eq_def]
              simp [ih]
            · by_cases h6 : c = Char.ofNat 12
              · subst h6
                rw [escChar, if_neg h1, if_neg h2, if_neg h3, if_neg h4, if_neg h5,
                  if_pos rfl]
                simp only [List.cons_append, List.nil_append]
                rw [parseStringAux.eq_def]
                simp [ih, show ¬(Char.ofNat 12 = '"') from h1,
                  show ¬(Char.ofNat 12 = '\\') from h2]
              · by_cases h7 : c = '\r'
                · subst h7
                  rw [escChar, if_neg h1, if_neg h2, if_neg h3, if_neg h4,
                    if_neg h5, if_neg h6, if_pos rfl]
                  simp only [List.cons_append, List.nil_append]
                  rw [parseStringAux.eq_def]
                  simp [ih]
                · by_cases h8 : c.toNat < 32
                  · rw [escChar, if_neg h1, if_neg h2, if_neg h3, if_neg h4,
                      if_neg h5, if_neg h6, if_neg h7, if_pos h8]
                    have hdiv : c.toNat / 16 < 16 := by omega
                    have hmod : c.toNat % 16 < 16 := Nat.mod_lt _ (by omega)
                    simp only [List.cons_append, List.nil_append]
                    rw [parseStringAux.eq_def]
                    simp only [if_neg (by decide : ¬('\\' : Char) = '"'),
                      if_pos (rfl : ('\\' : Char) = '\\'),
                      if_neg (by decide : ¬('u' : Char) = '"'),
                      if_neg (by decide : ¬('u' : Char) = '\\'),
                      if_neg (by decide : ¬('u' : Char) = '/'),
                      if_neg (by decide : ¬('u' : Char) = 'b'),
                      if_neg (by decide : ¬('u' : Char) = 'f'),
                      if_neg (by decide : ¬('u' : Char) = 'n'),
                      if_neg (by decide : ¬('u' : Char) = 'r'),
                      if_neg (by decide : ¬('u' : Char) = 't'),
                      if_pos (rfl : ('u' : Char) = 'u')]
                    rw [show hexVal '0' = some 0 from by decide,
                      hexVal_hexDigitChar _ hdiv, hexVal_hexDigitChar _ hmod]
                    simp [ih]
                    rw [show c.toNat / 16 * 16 + c.toNat % 16 = c.toNat from by omega,
                      Char.ofNat_toNat]
                  · rw [escChar, if_neg h1, if_neg h2, if_neg h3, if_neg h4,
                      if_neg h5, if_neg h6, if_neg h7, if_neg h8]
                    simp only [List.cons_append, List.nil_append]
                    rw [parseStringAux.eq_def]
                    simp [ih, h1, h2, h8]

/-- Helper: code point of a decimal digit character. -/
theorem toNat_digitChar (k : Nat) (h : k < 10) : (digitChar k).toNat = 48 + k :=
  toNat_ofNat_lt (48 + k) (by omega)

/-- Helper: digit characters satisfy the digit test. -/
theorem isDigitCh_digitChar (k : Nat) (h : k < 10) :
    isDigitCh (digitChar k) = true := by
  simp only [isDigitCh, toNat_digitChar k h, Bool.and_eq_true, decide_eq_true_eq]
  omega

/-- Helper: every character of a reversed-digit numeral is a digit. -/
theorem natToRevDigits_digits (n : Nat) :
    ∀ c ∈ natToRevDigits n, isDigitCh c = true := by
  induction n using Nat.strong_induction_on with
  | _ n ih =>
    cases n with
    | zero => intro c hc; rw [natToRevDigits] at hc; simp at hc
    | succ m =>
      intro c hc
      rw [natToRevDigits] at hc
      rcases List.mem_cons.mp hc with h | h
      · subst h; exact isDigitCh_digitChar _ (Nat.mod_lt _ (by omega))
      · exact ih ((m + 1) / 10) (Nat.div_lt_self (by omega) (by omega)) c h

/-- Helper: every character of a printed numeral is a digit. -/
theorem printNat_digits (n : Nat) : ∀ c ∈ printNat n, isDigitCh c = true := by
  intro c hc
  rw [printNat] at hc
  by_cases h : n = 0
  · rw [if_pos h] at hc
    simp at hc
    subst hc
    decide
  · rw [if_neg h] at hc
    exact natToRevDigits_digits n c (List.mem_reverse.mp hc)

/-- Helper: a printed numeral is never empty. -/
theorem printNat_ne_nil (n : Nat) : printNat n ≠ [] := by
  rw [printNat]
  by_cases h : n = 0
  · rw [if_pos h]; simp
  · rw [if_neg h]
    simp only [ne_eq, List.reverse_eq_nil_iff]
    cases n with
    | zero => exact absurd rfl h
    | succ m => rw [natToRevDigits]; simp

/-- Helper: a digit run stops at a non-digit head. -/
theorem parseDigitsAux_stop (acc : Nat) (rest : List Char)
    (h : noLeadingDigit rest = true) : parseDigitsAux acc rest = (acc, rest) := by
  cases rest with
  | nil => rfl
  | cons c cs =>
    have hc : isDigitCh c = false := by simpa [noLeadingDigit] using h
    simp [parseDigitsAux, hc]

/-- Helper: a digit run over an all-digit prefix continues into the
remainder with the accumulated value. -/
theorem parseDigitsAux_append (ds : List Char) : ∀ (acc : Nat) (rest : List Char),
    (∀ c ∈ ds, isDigitCh c = true) →
    parseDigitsAux acc (ds ++ rest) =
      parseDigitsAux (parseDigitsAux acc ds).1 rest := by
  induction ds with
  | nil => intro acc rest _; rfl
  | cons d l ih =>
    intro acc rest hd
    have hdd : isDigitCh d = true := hd d (List.mem_cons_self d l)
    simp only [List.cons_append, parseDigitsAux, hdd, if_true]
    exact ih _ rest (fun c hc => hd c (List.mem_cons_of_mem d hc))

/-- Helper: the value accumulated over a printed reversed-digit numeral. -/
theorem parseDigitsAux_value (n : Nat) : ∀ acc : Nat,
    (parseDigitsAux acc ((natToRevDigits n).reverse)).1 =
      acc * 10 ^ (natToRevDigits n).length + n := by
  induction n using Nat.strong_induction_on with
  | _ n ih =>
    intro acc
    cases n with
    | zero => rw [natToRevDigits]; simp [parseDigitsAux]
    | succ m =>
      rw [natToRevDigits]
      rw [List.reverse_cons, List.length_cons]
      have hdigits : ∀ c ∈ (natToRevDigits ((m + 1) / 10)).reverse, isDigitCh c = true :=
        fun c hc => natToRevDigits_digits _ c (List.mem_reverse.mp hc)
      rw [parseDigitsAux_append _ acc _ hdigits]
      rw [ih ((m + 1) / 10) (Nat.div_lt_self (by omega) (by omega)) acc]
      have hr : (m + 1) % 10 < 10 := Nat.mod_lt _ (by omega)
      simp only [parseDigitsAux, isDigitCh_digitChar _ hr, if_true,
        toNat_digitChar _ hr]
      have hdm : 10 * ((m + 1) / 10) + (m + 1) % 10 = m + 1 :=
        Nat.div_add_mod (m + 1) 10
      have hpow : (10 : Nat) ^ ((natToRevDigits ((m + 1) / 10)).length + 1) =
          10 ^ (natToRevDigits ((m + 1) / 10)).length * 10 := pow_succ 10 _
      rw [hpow]
      have hkey : (acc * 10 ^ (natToRevDigits ((m + 1) / 10)).length +
            (m + 1) / 10) * 10 + (48 + (m + 1) % 10 - 48) =
          acc * (10 ^ (natToRevDigits ((m + 1) / 10)).length * 10) +
            (10 * ((m + 1) / 10) + (m + 1) % 10) := by
        have h48 : 48 + (m + 1) % 10 - 48 = (m + 1) % 10 := by omega
        rw [h48]; ring
      rw [hkey, hdm]

/-- Helper: numeral parsing inverts numeral printing. -/
theorem parseNatNum_printNat (n : Nat) (rest : List Char)
    (hrest : noLeadingDigit rest = true) :
    parseNatNum (printNat n ++ rest) = some (n, rest) := by
  by_cases h0 : n = 0
  · subst h0
    rw [printNat, if_pos rfl]
    simp only [List.cons_append, List.nil_append, parseNatNum,
      show isDigitCh '0' = true from by decide, if_true]
    rw [show ('0' : Char).toNat - 48 = 0 from by decide,
      parseDigitsAux_stop 0 rest hrest]
  · obtain ⟨d, A, hfull⟩ : ∃ d A, printNat n = d :: A := by
      cases hp : printNat n with
      | nil => exact absurd hp (printNat_ne_nil n)
      | cons d A => exact ⟨d, A, rfl⟩
    have hdigits := printNat_digits n
    have hd : isDigitCh d = true :=
      hdigits d (by rw [hfull]; exact List.mem_cons_self _ _)
    have hv1 : (parseDigitsAux 0 (printNat n)).1 = n := by
      rw [printNat, if_neg h0, parseDigitsAux_value n 0]
      simp
    have hval : parseDigitsAux 0 (printNat n ++ rest) = (n, rest) := by
      rw [parseDigitsAux_append _ 0 rest hdigits,
        parseDigitsAux_stop _ rest hrest, hv1]
    have hstep : parseDigitsAux (d.toNat - 48) (A ++ rest) = (n, rest) := by
      have h2 : parseDigitsAux 0 (d :: (A ++ rest)) = (n, rest) := by
        rw [← List.cons_append, ← hfull]; exact hval
      simp only [parseDigitsAux, hd, if_true] at h2
      simpa using h2
    rw [hfull, List.cons_append]
    simp only [parseNatNum, hd, if_true, hstep]

/-- Helper: a digit character is none of the parser dispatch characters and
is not whitespace. -/
theorem digit_char_facts (c : Char) (h : isDigitCh c = true) :
    isWsChar c = false ∧ c ≠ 'n' ∧ c ≠ 't' ∧ c ≠ 'f' ∧ c ≠ '"' ∧ c ≠ '[' ∧
      c ≠ lbrace ∧ c ≠ '-' ∧ c ≠ ']' ∧ c ≠ '+' := by
  have hb : 48 ≤ c.toNat ∧ c.toNat ≤ 57 := by
    simpa [isDigitCh] using h
  refine ⟨?_, ?_, ?_, ?_, ?_, ?_, ?_, ?_, ?_, ?_⟩
  · simp only [isWsChar, Bool.or_eq_false_iff, decide_eq_false_iff_not]
    omega
  all_goals intro he
  all_goals subst he
  all_goals exact absurd h (by decide)

/-- Helper: every JSON value has positive size. -/
theorem jsize_pos (j : Json) : 1 ≤ jsize j := by
  cases j <;> simp [jsize]

/-- Helper: an array element contributes strictly to the list measure. -/
theorem jsize_mem_items {y : Json} {l : List Json} (h : y ∈ l) :
    1 + jsize y ≤ jsizeItems l := by
  induction l with
  | nil => cases h
  | cons x xs ih =>
    rw [jsizeItems]
    rcases List.mem_cons.mp h with h | h
    · subst h; omega
    · have := ih h; omega

/-- Helper: an array has no more elements than its measure. -/
theorem length_le_jsizeItems (l : List Json) : l.length ≤ jsizeItems l := by
  induction l with
  | nil => simp [jsizeItems]
  | cons x xs ih => rw [jsizeItems, List.length_cons]; omega

/-- Helper: an object member contributes strictly to the member measure. -/
theorem jsize_mem_members {w : String × Json} {ms : List (String × Json)}
    (h : w ∈ ms) : 1 + jsize w.2 ≤ jsizeMembers ms := by
  induction ms with
  | nil => cases h
  | cons m l ih =>
    rw [jsizeMembers]
    rcases List.mem_cons.mp h with h | h
    · subst h; omega
    · have := ih h; omega

/-- Helper: an object has no more members than its measure. -/
theorem length_le_jsizeMembers (ms : List (String × Json)) :
    ms.length ≤ jsizeMembers ms := by
  induction ms with
  | nil => simp [jsizeMembers]
  | cons m l ih => rw [jsizeMembers, List.length_cons]; omega

/-- Helper: a printed JSON value starts with a character that is neither
whitespace nor a closing bracket. -/
theorem printJson_head (j : Json) :
    ∃ c t, printJson j = c :: t ∧ isWsChar c = false ∧ c ≠ ']' := by
  cases j with
  | null => exact ⟨'n', _, rfl, by decide, by decide⟩
  | bool b =>
    cases b with
    | false => exact ⟨'f', _, rfl, by decide, by decide⟩
    | true => exact ⟨'t', _, rfl, by decide, by decide⟩
  | num i e =>
    cases i with
    | ofNat n =>
      obtain ⟨d, A, hfull⟩ : ∃ d A, printNat n = d :: A := by
        cases hp : printNat n with
        | nil => exact absurd hp (printNat_ne_nil n)
        | cons d A => exact ⟨d, A, rfl⟩
      have hd : isDigitCh d = true :=
        printNat_digits n d (by rw [hfull]; exact List.mem_cons_self _ _)
      have hfacts := digit_char_facts d hd
      refine ⟨d, A ++ printExp e, ?_, hfacts.1, hfacts.2.2.2.2.2.2.2.2.1⟩
      show printInt (Int.ofNat n) ++ printExp e = d :: (A ++ printExp e)
      rw [printInt, Int.ofNat_eq_natCast, if_neg (by omega : ¬(n : Int) < 0)]
      rw [Int.natAbs_ofNat, hfull, List.cons_append]
    | negSucc m =>
      refine ⟨'-', printNat (Int.negSucc m).natAbs ++ printExp e, ?_,
        by decide, by decide⟩
      show printInt (Int.negSucc m) ++ printExp e =
        '-' :: (printNat (Int.negSucc m).natAbs ++ printExp e)
      rw [printInt, if_pos (Int.negSucc_lt_zero m), List.cons_append]
  | str s => exact ⟨'"', _, rfl, by decide, by decide⟩
  | arr l =>
    cases l with
    | nil => exact ⟨'[', _, rfl, by decide, by decide⟩
    | cons x xs => exact ⟨'[', _, rfl, by decide, by decide⟩
  | obj l =>
    cases l with
    | nil => exact ⟨lbrace, _, rfl, by decide, by decide⟩
    | cons m ms => exact ⟨lbrace, _, rfl, by decide, by decide⟩

/-- Helper: a list headed by a non-digit has no leading digit. -/
theorem noLeadingDigit_cons (c : Char) (t : List Char) (h : isDigitCh c = false) :
    noLeadingDigit (c :: t) = true := by
  simp [noLeadingDigit, h]

/-- Helper: a list headed by a character passing the non-continuation check
cannot continue a numeral. -/
theorem noNumTail_cons (c : Char) (t : List Char)
    (h : (isDigitCh c || c == '.' || c == 'e' || c == 'E') = false) :
    noNumTail (c :: t) = true := by
  simp [noNumTail, h]

/-- Helper: the components of a non-continuation head. -/
theorem noNumTail_facts {c : Char} {t : List Char}
    (h : noNumTail (c :: t) = true) :
    isDigitCh c = false ∧ c ≠ '.' ∧ c ≠ 'e' ∧ c ≠ 'E' := by
  simp only [noNumTail, Bool.not_eq_true', Bool.or_eq_false_iff,
    beq_eq_false_iff_ne, ne_eq] at h
  exact ⟨h.1.1.1, h.1.1.2, h.1.2, h.2⟩

/-- Helper: a non-continuation remainder in particular has no leading
digit. -/
theorem noNumTail_noLeadingDigit {l : List Char} (h : noNumTail l = true) :
    noLeadingDigit l = true := by
  cases l with
  | nil => rfl
  | cons c t =>
    have hc := (noNumTail_facts h).1
    simp [noLeadingDigit, hc]

/-- Helper: a positive numeral is printed with a nonzero leading digit. -/
theorem printNat_head_ne_zero (n : Nat) (h : n ≠ 0) :
    ∃ d A, printNat n = d :: A ∧ isDigitCh d = true ∧ d.toNat ≠ 48 := by
  suffices H : ∀ n, n ≠ 0 →
      ∃ d A, (natToRevDigits n).reverse = d :: A ∧ isDigitCh d = true ∧
        d.toNat ≠ 48 by
    obtain ⟨d, A, h1, h2, h3⟩ := H n h
    exact ⟨d, A, by rw [printNat, if_neg h]; exact h1, h2, h3⟩
  intro n
  induction n using Nat.strong_induction_on with
  | _ n ih =>
    intro hn
    cases n with
    | zero => exact absurd rfl hn
    | succ m =>
      rw [natToRevDigits, List.reverse_cons]
      by_cases h10 : (m + 1) / 10 = 0
      · rw [h10, natToRevDigits]
        have hm : (m + 1) % 10 < 10 := Nat.mod_lt _ (by omega)
        refine ⟨digitChar ((m + 1) % 10), [], by simp,
          isDigitCh_digitChar _ hm, ?_⟩
        rw [toNat_digitChar _ hm]
        omega
      · obtain ⟨d, A, hrev, hd, hd48⟩ :=
          ih ((m + 1) / 10) (Nat.div_lt_self (by omega) (by omega)) h10
        rw [hrev]
        exact ⟨d, A ++ [digitChar ((m + 1) % 10)], by simp, hd, hd48⟩

/-- Helper: integer-part parsing inverts numeral printing. -/
theorem parseIntPart_printNat (n : Nat) (rest : List Char)
    (hrest : noLeadingDigit rest = true) :
    parseIntPart (printNat n ++ rest) = some (n, rest) := by
  by_cases h0 : n = 0
  · subst h0
    rw [printNat, if_pos rfl]
    simp only [List.cons_append, List.nil_append, parseIntPart]
    rw [if_pos (by decide : ('0' : Char).toNat = 48)]
  · obtain ⟨d, A, hfull, hd, hd48⟩ := printNat_head_ne_zero n h0
    have hdigits := printNat_digits n
    have hv1 : (parseDigitsAux 0 (printNat n)).1 = n := by
      rw [printNat, if_neg h0, parseDigitsAux_value n 0]
      simp
    have hval : parseDigitsAux 0 (printNat n ++ rest) = (n, rest) := by
      rw [parseDigitsAux_append _ 0 rest hdigits,
        parseDigitsAux_stop _ rest hrest, hv1]
    have hstep : parseDigitsAux (d.toNat - 48) (A ++ rest) = (n, rest) := by
      have h2 : parseDigitsAux 0 (d :: (A ++ rest)) = (n, rest) := by
        rw [← List.cons_append, ← hfull]; exact hval
      simp only [parseDigitsAux, hd, if_true] at h2
      simpa using h2
    rw [hfull, List.cons_append]
    simp only [parseIntPart]
    rw [if_neg hd48, if_pos hd, hstep]

/-- Helper: fraction parsing is empty at a non-dot head. -/
theorem parseFracPart_skip (l : List Char)
    (h : ∀ c t, l = c :: t → c ≠ '.') :
    parseFracPart l = some (0, 0, l) := by
  cases l with
  | nil => rfl
  | cons c t =>
    simp only [parseFracPart]
    rw [if_neg (h c t rfl)]

/-- Helper: exponent parsing is zero at a non-marker head. -/
theorem parseExpPart_skip (l : List Char)
    (h : ∀ c t, l = c :: t → ¬(c = 'e' ∨ c = 'E')) :
    parseExpPart l = some (0, l) := by
  cases l with
  | nil => rfl
  | cons c t =>
    simp only [parseExpPart]
    rw [if_neg (h c t rfl)]

/-- Helper: minus of a successor cast is the negative-successor integer. -/
theorem neg_natCast_succ (m : Nat) : -((m + 1 : Nat) : Int) = Int.negSucc m := by
  rw [Int.negSucc_eq]
  push_cast
  ring

/-- Helper: exponent-part parsing inverts exponent printing at a nonzero
exponent. -/
theorem parseExpPart_print (e : Int) (he : e ≠ 0) (rest : List Char)
    (hrest : noLeadingDigit rest = true) :
    parseExpPart ('e' :: (printInt e ++ rest)) = some (e, rest) := by
  simp only [parseExpPart, true_or, if_true]
  cases e with
  | ofNat k =>
    have hk : k ≠ 0 := fun hk0 => he (by rw [hk0]; rfl)
    obtain ⟨d, A, hfull, hd, _⟩ := printNat_head_ne_zero k hk
    have hf := digit_char_facts d hd
    rw [printInt, Int.ofNat_eq_natCast, if_neg (by omega : ¬(k : Int) < 0),
      Int.natAbs_ofNat, hfull, List.cons_append]
    simp only [if_neg hf.2.2.2.2.2.2.2.2.2, if_neg hf.2.2.2.2.2.2.2.1]
    rw [← List.cons_append, ← hfull, parseNatNum_printNat k rest hrest]
    rfl
  | negSucc m =>
    rw [printInt, if_pos (Int.negSucc_lt_zero m)]
    simp only [List.cons_append]
    simp only [if_neg (by decide : ¬('-' : Char) = '+'),
      if_pos (rfl : ('-' : Char) = '-')]
    rw [show (Int.negSucc m).natAbs = m + 1 from rfl,
      parseNatNum_printNat (m + 1) rest hrest]
    simp only [Option.map_some']
    rw [neg_natCast_succ]
    simp

/-- Helper: numeral parsing inverts numeral printing. -/
theorem parseJsonNum_print (neg : Bool) (k : Nat) (e : Int) (rest : List Char)
    (hrest : noNumTail rest = true) :
    parseJsonNum neg (printNat k ++ (printExp e ++ rest)) =
      some (Json.num (if neg then -(k : Int) else (k : Int)) e, rest) := by
  have hld : noLeadingDigit rest = true := noNumTail_noLeadingDigit hrest
  by_cases he : e = 0
  · subst he
    rw [printExp, if_pos rfl, List.nil_append]
    have hfr : ∀ c t, rest = c :: t → c ≠ '.' :=
      fun c t hl => (noNumTail_facts (hl ▸ hrest)).2.1
    have hex : ∀ c t, rest = c :: t → ¬(c = 'e' ∨ c = 'E') := by
      intro c t hl hor
      obtain ⟨_, _, he1, he2⟩ := noNumTail_facts (hl ▸ hrest)
      rcases hor with h | h
      · exact he1 h
      · exact he2 h
    unfold parseJsonNum
    rw [parseIntPart_printNat k rest hld]
    simp only [parseFracPart_skip rest hfr, parseExpPart_skip rest hex]
    simp
  · rw [printExp, if_neg he]
    simp only [List.cons_append]
    unfold parseJsonNum
    rw [parseIntPart_printNat k _ (noLeadingDigit_cons 'e' _ (by decide))]
    simp only [parseFracPart_skip ('e' :: (printInt e ++ rest))
        (fun c t hl => by
          injection hl with h1 _
          rw [← h1]; decide),
      parseExpPart_print e he rest hld]
    simp

/-- Helper: whitespace skipping keeps a leading quote. -/
theorem skipWs_quote (l : List Char) : skipWs ('"' :: l) = '"' :: l :=
  skipWs_cons_of_neg _ _ (by decide)

/-- Helper: whitespace skipping keeps a leading colon. -/
theorem skipWs_colon (l : List Char) : skipWs (':' :: l) = ':' :: l :=
  skipWs_cons_of_neg _ _ (by decide)

/-- Helper: whitespace skipping keeps a leading comma. -/
theorem skipWs_comma (l : List Char) : skipWs (',' :: l) = ',' :: l :=
  skipWs_cons_of_neg _ _ (by decide)

/-- Helper: whitespace skipping keeps a leading closing brace. -/
theorem skipWs_rbrace (l : List Char) : skipWs (rbrace :: l) = rbrace :: l :=
  skipWs_cons_of_neg _ _ (by decide)

/-- Helper: whitespace skipping keeps a leading closing bracket. -/
theorem skipWs_rbracket (l : List Char) : skipWs (']' :: l) = ']' :: l :=
  skipWs_cons_of_neg _ _ (by decide)

/-- Helper: element-list parsing inverts element-list printing. -/
theorem parseListWith_print (pv : List Char → Option (Json × List Char))
    (xs : List Json) : ∀ (x : Json) (fuel : Nat) (rest : List Char),
    (x :: xs).length ≤ fuel →
    (∀ y ∈ x :: xs, ∀ r, noNumTail r = true →
      pv (printJson y ++ r) = some (y, r)) →
    parseListWith pv fuel (printJson x ++ (printItems xs ++ ']' :: rest)) =
      some (x :: xs, rest) := by
  induction xs with
  | nil =>
    intro x fuel rest hfuel hpv
    cases fuel with
    | zero => simp at hfuel
    | succ f =>
      have hx : pv (printJson x ++ (printItems [] ++ ']' :: rest)) =
          some (x, printItems [] ++ ']' :: rest) :=
        hpv x (List.mem_cons_self _ _) (printItems [] ++ ']' :: rest)
          (noNumTail_cons ']' rest (by decide))
      simp only [parseListWith, hx]
      rw [printItems, List.nil_append,
        skipWs_cons_of_neg ']' rest (by decide)]
      simp
  | cons y ys ih =>
    intro x fuel rest hfuel hpv
    cases fuel with
    | zero => simp at hfuel
    | succ f =>
      have hx : pv (printJson x ++ (printItems (y :: ys) ++ ']' :: rest)) =
          some (x, printItems (y :: ys) ++ ']' :: rest) := by
        apply hpv x (List.mem_cons_self _ _)
        rw [printItems]
        simp only [List.cons_append, List.append_assoc]
        exact noNumTail_cons ',' _ (by decide)
      simp only [parseListWith, hx]
      rw [printItems]
      simp only [List.cons_append, List.append_assoc]
      rw [skipWs_cons_of_neg ',' _ (by decide)]
      have hrec := ih y f rest (by simp at hfuel ⊢; omega)
        (fun z hz r hr => hpv z (List.mem_cons_of_mem x hz) r hr)
      simp [hrec]

/-- Helper: member-list parsing inverts member-list printing. -/
theorem parseMembersWith_print (pv : List Char → Option (Json × List Char))
    (ms : List (String × Json)) : ∀ (m : String × Json) (fuel : Nat) (rest : List Char),
    (m :: ms).length ≤ fuel →
    (∀ w ∈ m :: ms, ∀ r, noNumTail r = true →
      pv (printJson w.2 ++ r) = some (w.2, r)) →
    parseMembersWith pv fuel (printMember m ++ (printMembers ms ++ rbrace :: rest)) =
      some (m :: ms, rest) := by
  induction ms with
  | nil =>
    intro m fuel rest hfuel hpv
    cases fuel with
    | zero => simp at hfuel
    | succ f =>
      obtain ⟨k, v⟩ := m
      have hv : pv (printJson v ++ rbrace :: rest) = some (v, rbrace :: rest) :=
        hpv (k, v) (List.mem_cons_self _ _) (rbrace :: rest)
          (noNumTail_cons rbrace rest (by decide))
      rw [printMembers, printMember, printString]
      simp only [parseMembersWith, List.nil_append, List.cons_append,
        List.append_assoc, List.singleton_append]
      simp +decide [skipWs_quote, skipWs_colon, skipWs_rbrace,
        parseStringAux_escChars, hv, show String.mk k.data = k from rfl]
  | cons w ws ih =>
    intro m fuel rest hfuel hpv
    cases fuel with
    | zero => simp at hfuel
    | succ f =>
      obtain ⟨k, v⟩ := m
      have hv : pv (printJson v ++
            ',' :: (printMember w ++ (printMembers ws ++ rbrace :: rest))) =
          some (v, ',' :: (printMember w ++ (printMembers ws ++ rbrace :: rest))) :=
        hpv (k, v) (List.mem_cons_self _ _) _
          (noNumTail_cons ',' _ (by decide))
      have hrec := ih w f rest (by simp at hfuel ⊢; omega)
        (fun z hz r hr => hpv z (List.mem_cons_of_mem (k, v) hz) r hr)
      rw [printMember, printString]
      simp only [parseMembersWith, List.cons_append, List.append_assoc,
        List.singleton_append]
      simp +decide [skipWs_quote, skipWs_colon, skipWs_comma,
        parseStringAux_escChars, hv, hrec, printMembers, List.append_assoc,
        show String.mk k.data = k from rfl]

/-- Helper: value parsing inverts value printing, given fuel at least the
size of the value and a remainder that does not start with a digit. -/
theorem parseValue_print (j : Json) (fuel : Nat) (rest : List Char)
    (hfuel : jsize j ≤ fuel) (hrest : noNumTail rest = true) :
    parseValue fuel (printJson j ++ rest) = some (j, rest) := by
  suffices H : ∀ n j fuel rest, jsize j ≤ n → jsize j ≤ fuel →
      noNumTail rest = true →
      parseValue fuel (printJson j ++ rest) = some (j, rest) from
    H (jsize j) j fuel rest le_rfl hfuel hrest
  intro n
  induction n using Nat.strong_induction_on with
  | _ n ih =>
    intro j fuel rest hn hfuel hrest
    have hpos := jsize_pos j
    cases fuel with
    | zero => omega
    | succ f =>
      cases j with
      | null =>
        rw [printJson]
        simp +decide [parseValue, skipWs, dropLit]
      | bool b =>
        cases b with
        | true =>
          rw [printJson]
          simp +decide [parseValue, skipWs, dropLit]
        | false =>
          rw [printJson]
          simp +decide [parseValue, skipWs, dropLit]
      | num i e =>
        cases i with
        | ofNat k =>
          have hpr : printJson (Json.num (Int.ofNat k) e) =
              printNat k ++ printExp e := by
            rw [printJson, printInt, Int.ofNat_eq_natCast,
              if_neg (by omega : ¬(k : Int) < 0), Int.natAbs_ofNat]
          rw [hpr, List.append_assoc]
          obtain ⟨d, A, hfull⟩ : ∃ d A, printNat k = d :: A := by
            cases hp : printNat k with
            | nil => exact absurd hp (printNat_ne_nil k)
            | cons d A => exact ⟨d, A, rfl⟩
          have hd : isDigitCh d = true :=
            printNat_digits k d (by rw [hfull]; exact List.mem_cons_self _ _)
          have hf := digit_char_facts d hd
          rw [hfull, List.cons_append]
          simp only [parseValue, skipWs_cons_of_neg d _ hf.1]
          rw [if_neg hf.2.1, if_neg hf.2.2.1, if_neg hf.2.2.2.1,
            if_neg hf.2.2.2.2.1, if_neg hf.2.2.2.2.2.1, if_neg hf.2.2.2.2.2.2.1,
            if_neg hf.2.2.2.2.2.2.2.1]
          rw [← List.cons_append, ← hfull,
            parseJsonNum_print false k e rest hrest]
          rfl
        | negSucc m =>
          have hpr : printJson (Json.num (Int.negSucc m) e) =
              '-' :: (printNat (m + 1) ++ printExp e) := by
            rw [printJson, printInt, if_pos (Int.negSucc_lt_zero m),
              List.cons_append]
            rfl
          rw [hpr, List.cons_append, List.append_assoc]
          simp only [parseValue, skipWs_cons_of_neg '-' _ (by decide)]
          rw [if_neg (by decide : ¬('-' : Char) = 'n'),
            if_neg (by decide : ¬('-' : Char) = 't'),
            if_neg (by decide : ¬('-' : Char) = 'f'),
            if_neg (by decide : ¬('-' : Char) = '"'),
            if_neg (by decide : ¬('-' : Char) = '['),
            if_neg (by decide : ¬('-' : Char) = lbrace)]
          simp only [if_true]
          rw [parseJsonNum_print true (m + 1) e rest hrest]
          rw [show (if true then -((m + 1 : Nat) : Int) else ((m + 1 : Nat) : Int))
              = -((m + 1 : Nat) : Int) from rfl]
          rw [neg_natCast_succ]
      | str s =>
        rw [printJson, printString]
        simp only [List.cons_append, List.append_assoc, List.singleton_append]
        simp +decide [parseValue, skipWs_quote, parseStringAux_escChars,
          show String.mk s.data = s from rfl]
      | arr l =>
        cases l with
        | nil =>
          rw [printJson]
          simp +decide [parseValue, skipWs]
        | cons x xs =>
          have hlt : jsizeItems (x :: xs) < n := by
            rw [jsize] at hn; omega
          have hfu : jsizeItems (x :: xs) ≤ f := by
            rw [jsize] at hfuel; omega
          have hpv : ∀ y ∈ x :: xs, ∀ r, noNumTail r = true →
              parseValue f (printJson y ++ r) = some (y, r) := by
            intro y hy r hr
            have hy1 : 1 + jsize y ≤ jsizeItems (x :: xs) := jsize_mem_items hy
            exact ih (jsize y) (by omega) y f r le_rfl (by omega) hr
          have hlen : (x :: xs).length ≤ f :=
            le_trans (length_le_jsizeItems _) hfu
          have happ := parseListWith_print (parseValue f) xs x f rest hlen hpv
          obtain ⟨c₀, t₀, hx0, hws0, hne0⟩ := printJson_head x
          rw [printJson]
          simp only [List.cons_append, List.append_assoc, List.singleton_append,
            List.nil_append]
          simp only [parseValue, skipWs_cons_of_neg '[' _ (by decide)]
          rw [if_neg (by decide : ¬('[' : Char) = 'n'),
            if_neg (by decide : ¬('[' : Char) = 't'),
            if_neg (by decide : ¬('[' : Char) = 'f'),
            if_neg (by decide : ¬('[' : Char) = '"')]
          simp only [if_true]
          rw [hx0] at happ ⊢
          simp only [List.cons_append] at happ ⊢
          rw [skipWs_cons_of_neg c₀ _ hws0]
          simp only [if_neg hne0, happ]
          rfl
      | obj l =>
        cases l with
        | nil =>
          rw [printJson]
          simp +decide [parseValue, skipWs]
        | cons m ms =>
          have hlt : jsizeMembers (m :: ms) < n := by
            rw [jsize] at hn; omega
          have hfu : jsizeMembers (m :: ms) ≤ f := by
            rw [jsize] at hfuel; omega
          have hpv : ∀ w ∈ m :: ms, ∀ r, noNumTail r = true →
              parseValue f (printJson w.2 ++ r) = some (w.2, r) := by
            intro w hw r hr
            have hw1 : 1 + jsize w.2 ≤ jsizeMembers (m :: ms) := jsize_mem_members hw
            exact ih (jsize w.2) (by omega) w.2 f r le_rfl (by omega) hr
          have hlen : (m :: ms).length ≤ f :=
            le_trans (length_le_jsizeMembers _) hfu
          have happ := parseMembersWith_print (parseValue f) ms m f rest hlen hpv
          obtain ⟨k, v⟩ := m
          rw [printJson]
          simp only [List.cons_append, List.append_assoc, List.singleton_append,
            List.nil_append]
          simp only [parseValue, skipWs_cons_of_neg lbrace _ (by decide)]
          rw [if_neg (by decide : ¬(lbrace = 'n')),
            if_neg (by decide : ¬(lbrace = 't')),
            if_neg (by decide : ¬(lbrace = 'f')),
            if_neg (by decide : ¬(lbrace = '"')),
            if_neg (by decide : ¬(lbrace = '['))]
          simp only [if_true]
          rw [printMember, printString] at happ ⊢
          simp only [List.cons_append, List.append_assoc, List.singleton_append,
            List.nil_append] at happ ⊢
          rw [skipWs_quote]
          simp only [if_neg (by decide : ¬(('"' : Char) = rbrace)), happ]
          rfl

/-- Helper: the element measure is bounded by the printed length. -/
theorem jsizeItems_le_length (l : List Json)
    (h : ∀ y ∈ l, jsize y ≤ (printJson y).length) :
    jsizeItems l ≤ (printItems l).length := by
  induction l with
  | nil => simp [jsizeItems, printItems]
  | cons y ys ih =>
    rw [jsizeItems, printItems]
    simp only [List.length_append, List.length_cons]
    have h1 := h y (List.mem_cons_self _ _)
    have h2 := ih (fun z hz => h z (List.mem_cons_of_mem _ hz))
    omega

/-- Helper: the member measure is bounded by the printed length. -/
theorem jsizeMembers_le_length (ms : List (String × Json))
    (h : ∀ w ∈ ms, jsize w.2 ≤ (printJson w.2).length) :
    jsizeMembers ms ≤ (printMembers ms).length := by
  induction ms with
  | nil => simp [jsizeMembers, printMembers]
  | cons w ws ih =>
    obtain ⟨k, v⟩ := w
    rw [jsizeMembers, printMembers, printMember, printString]
    simp only [List.length_append, List.length_cons]
    have h1 := h (k, v) (List.mem_cons_self _ _)
    have h2 := ih (fun z hz => h z (List.mem_cons_of_mem _ hz))
    simp only at h1
    omega

/-- Helper: the size of a JSON value never exceeds its printed length, so
the parser fuel drawn from the input length suffices. -/
theorem jsize_le_printJson_length (j : Json) : jsize j ≤ (printJson j).length := by
  suffices H : ∀ n j, jsize j ≤ n → jsize j ≤ (printJson j).length from
    H (jsize j) j le_rfl
  intro n
  induction n using Nat.strong_induction_on with
  | _ n ih =>
    intro j hn
    cases j with
    | null => simp [jsize, printJson]
    | bool b => cases b <;> simp [jsize, printJson]
    | num i e =>
      rw [jsize]
      have hne : printInt i ≠ [] := by
        rw [printInt]
        by_cases h : i < 0
        · rw [if_pos h]; simp
        · rw [if_neg h]; exact printNat_ne_nil _
      have hlen : 0 < (printInt i).length := List.length_pos.mpr hne
      show 1 ≤ (printJson (Json.num i e)).length
      rw [printJson]
      simp only [List.length_append]
      omega
    | str s =>
      rw [jsize, printJson, printString]
      simp
    | arr l =>
      cases l with
      | nil => rw [jsize, jsizeItems, printJson]; simp
      | cons x xs =>
        have hel : ∀ y ∈ x :: xs, jsize y ≤ (printJson y).length := by
          intro y hy
          have h1 : 1 + jsize y ≤ jsizeItems (x :: xs) := jsize_mem_items hy
          rw [jsize] at hn
          exact ih (jsize y) (by omega) y le_rfl
        have h1 := hel x (List.mem_cons_self _ _)
        have h2 := jsizeItems_le_length xs
          (fun z hz => hel z (List.mem_cons_of_mem _ hz))
        rw [jsize, jsizeItems, printJson]
        simp only [List.length_append, List.length_cons]
        omega
    | obj l =>
      cases l with
      | nil => rw [jsize, jsizeMembers, printJson]; simp
      | cons m ms =>
        have hel : ∀ w ∈ m :: ms, jsize w.2 ≤ (printJson w.2).length := by
          intro w hw
          have h1 : 1 + jsize w.2 ≤ jsizeMembers (m :: ms) := jsize_mem_members hw
          rw [jsize] at hn
          exact ih (jsize w.2) (by omega) w.2 le_rfl
        have h1 := hel m (List.mem_cons_self _ _)
        have h2 := jsizeMembers_le_length ms
          (fun z hz => hel z (List.mem_cons_of_mem _ hz))
        obtain ⟨k, v⟩ := m
        rw [jsize, jsizeMembers, printJson, printMember, printString]
        simp only [List.length_append, List.length_cons]
        simp only at h1
        omega

/-- Helper: parsing a stringified gallery returns its JSON value. -/
theorem jsonParse_stringifyImages (S : List GeneratedImage) :
    jsonParse (stringifyImages S) = some (imagesToJson S) := by
  unfold jsonParse stringifyImages
  rw [show (String.mk (printJson (imagesToJson S))).data =
      printJson (imagesToJson S) from rfl]
  rw [show (String.mk (printJson (imagesToJson S))).length =
      (printJson (imagesToJson S)).length from rfl]
  have h := parseValue_print (imagesToJson S)
    ((printJson (imagesToJson S)).length + 1) []
    (by have := jsize_le_printJson_length (imagesToJson S); omega) rfl
  rw [List.append_nil] at h
  rw [h]
  simp [skipWs]

/-- Helper: reading back one encoded record recovers it. -/
theorem decodeImage_imageToJson (g : GeneratedImage) :
    decodeImage (imageToJson g) = some g := by
  simp [decodeImage, imageToJson, getField, Int.toNat_ofNat]

/-- Helper: reading back an encoded gallery recovers it. -/
theorem decodeImages_imagesToJson (S : List GeneratedImage) :
    decodeImages (imagesToJson S) = some S := by
  rw [imagesToJson, decodeImages]
  induction S with
  | nil => rfl
  | cons g gs ih =>
    rw [List.map_cons, List.mapM_cons, decodeImage_imageToJson g, ih]
    rfl

/-- C6: saving a gallery always writes its full serialization over whatever
string the fixed key held before, and loading what was saved yields exactly
the saved sequence, order included. -/
theorem save_load_roundtrip (S : List GeneratedImage) (prior prior₂ : Option String) :
    decodeImages (loadImages (saveImages S prior)) = some S ∧
    saveImages S prior = saveImages S prior₂ := by
  refine ⟨?_, rfl⟩
  show decodeImages (loadImages (some (stringifyImages S))) = some S
  simp only [loadImages, jsonParse_stringifyImages]
  exact decodeImages_imagesToJson S

/-- C7 (counterexample): the startup load validates nothing beyond JSON
syntax; the stored text made of the single character 1 parses as the JSON
number 1 wrapped in an array, is not the expected record structure, and yet
is installed as the images value instead of the empty sequence. -/
theorem load_no_structure_check :
    loadImages (some "[1]") = Json.arr [Json.num 1 0] ∧
    decodeImages (Json.arr [Json.num 1 0]) = none ∧
    Json.arr [Json.num 1 0] ≠ imagesToJson [] := by
  refine ⟨rfl, rfl, ?_⟩
  rw [imagesToJson]
  simp

/-- C7 (amended): when the fixed key is absent, or its text fails to parse
as JSON, the startup load leaves the images sequence empty and the JSON
SyntaxError is caught rather than propagated; text that parses as JSON is
installed without structural validation. -/
theorem load_failure_empty (stored : Option String)
    (h : stored = none ∨ ∃ s, stored = some s ∧ jsonParse s = none) :
    loadImages stored = imagesToJson [] := by
  rcases h with h | ⟨s, hs, hp⟩
  · subst h; rfl
  · subst hs
    simp only [loadImages, hp]

theorem load_failure_empty_witness :
    ((some "not json" : Option String) = none ∨
      ∃ s, (some "not json" : Option String) = some s ∧ jsonParse s = none) ∧
    loadImages (some "not json") = imagesToJson [] :=
  ⟨Or.inr ⟨"not json", rfl, rfl⟩,
   load_failure_empty (some "not json") (Or.inr ⟨"not json", rfl, rfl⟩)⟩

end TextToImageStudio
